import Mathlib

/-!
Verification development for the nStore repository (a uniform access layer
over local files and S3 objects).

The Python sources (`nstore/__init__.py`, `nstore/pool.py`,
`nstore/exceptions.py`, `nstore/fileops.py`) are shallowly embedded below:
strings are lists of characters, the filesystem is an association list from
paths to file contents, the S3 client is an abstract record of `download`
and `upload` operations, and every operation returns an explicit result
record holding an optional raised error, the resulting filesystem and the
list of performed side effects.
-/

/-- Strings of the embedded program: Python `str` as a list of characters. -/
abbrev Str := List Char

/-- Convert a Lean string literal to the embedding's string type. -/
def strR (s : String) : Str := s.data

/-- The separator `"://"` used by `_decompose`. -/
def sepS : Str := [':', '/', '/']

/-- The scheme string `"file"`. -/
def fileS : Str := strR (r"file")

/-- The scheme string `"s3"`. -/
def s3S : Str := strR (r"s3")

/-- Does the string begin with the separator `"://"`? -/
def startsSep : Str → Bool
  | ':' :: '/' :: '/' :: _ => true
  | _ => false

/-- Leftmost-occurrence splitting on `"://"`, as performed step by step by
Python's `str.split("://")`: `none` when the separator does not occur,
otherwise `some (before, after)` where `before` is the text before the first
occurrence and `after` the text after it. -/
def splitFirst : Str → Option (Str × Str)
  | [] => none
  | c :: rest =>
    if startsSep (c :: rest) then some ([], rest.drop 2)
    else
      match splitFirst rest with
      | none => none
      | some (a, b) => some (c :: a, b)

/-- The first field of Python's `split("://")` applied to `s`: the text before
the first occurrence of the separator (all of `s` when there is none). -/
def firstSeg (s : Str) : Str :=
  match splitFirst s with
  | none => s
  | some (a, _) => a

/-- ASCII lower-casing of one character, modelling Python `str.lower()` on
the (ASCII) scheme part of a location string. -/
def lowerChar (c : Char) : Char :=
  if 65 ≤ c.toNat ∧ c.toNat ≤ 90 then Char.ofNat (c.toNat + 32) else c

/-- Lower-casing of a scheme string (`parts[0].lower()`). -/
def toLowerStr (s : Str) : Str := s.map lowerChar

/-- `_decompose` from `nstore/__init__.py`: `str(path).split("://")`, with a
`"file"` scheme inserted when the separator is absent, and the scheme
lower-cased.  Note that Python's `split` splits on every occurrence of
`"://"`, and `parts[1]` is the text between the first and the second
occurrence, so any text from a second occurrence onward is dropped. -/
def decomposeL (s : Str) : Str × Str :=
  match splitFirst s with
  | none => (fileS, s)
  | some (a, rest) => (toLowerStr a, firstSeg rest)

/-- Modelled from the spec's words for comparison with `decomposeL`
(claim C5): a decomposition that splits on the FIRST occurrence of `"://"`
only, keeping everything after it as the path. -/
def decomposeSpecFirst (s : Str) : Str × Str :=
  match splitFirst s with
  | none => (fileS, s)
  | some (a, rest) => (toLowerStr a, rest)

/-- Reconstruction of a location string from a decomposed pair:
`scheme + "://" + path`, or the bare path when the scheme is `"file"`. -/
def recompose (l : Str × Str) : Str :=
  if l.1 = fileS then l.2 else l.1 ++ sepS ++ l.2

/-- Two location strings are equivalent when they decompose to the same
(scheme, path) pair (§3 of the spec; scheme comparison is case-insensitive
because `decomposeL` lower-cases the scheme). -/
def locEquiv (x y : Str) : Prop := decomposeL x = decomposeL y

-- ### Basic facts about `splitFirst`

theorem charOfNat_toNat (n : Nat) (h : n < 55296) : (Char.ofNat n).toNat = n := by
  have hv : n.isValidChar := Or.inl h
  simp [Char.ofNat, hv, Char.ofNatAux, Char.toNat, UInt32.toNat, BitVec.toNat_ofNatLt]

theorem lowerChar_eq_colon {c : Char} (h : lowerChar c = ':') : c = ':' := by
  unfold lowerChar at h
  split at h
  · rename_i hc
    have := congrArg Char.toNat h
    rw [charOfNat_toNat (c.toNat + 32) (by omega)] at this
    have : c.toNat + 32 = 58 := this
    omega
  · exact h

theorem lowerChar_eq_slash {c : Char} (h : lowerChar c = '/') : c = '/' := by
  unfold lowerChar at h
  split at h
  · rename_i hc
    have := congrArg Char.toNat h
    rw [charOfNat_toNat (c.toNat + 32) (by omega)] at this
    have : c.toNat + 32 = 47 := this
    omega
  · exact h

theorem lowerChar_idem (c : Char) : lowerChar (lowerChar c) = lowerChar c := by
  unfold lowerChar
  split
  · rename_i hc
    have ht : (Char.ofNat (c.toNat + 32)).toNat = c.toNat + 32 :=
      charOfNat_toNat _ (by omega)
    rw [if_neg]
    rw [ht]
    omega
  · rfl

theorem toLowerStr_idem (s : Str) : toLowerStr (toLowerStr s) = toLowerStr s := by
  unfold toLowerStr
  rw [List.map_map]
  exact List.map_congr_left (fun c _ => lowerChar_idem c)

theorem startsSep_iff {s : Str} :
    startsSep s = true ↔ ∃ t, s = ':' :: '/' :: '/' :: t := by
  unfold startsSep
  split
  · rename_i t
    exact ⟨fun _ => ⟨t, rfl⟩, fun _ => rfl⟩
  · rename_i hno
    constructor
    · intro hf
      exact absurd hf (by simp)
    · rintro ⟨t, rfl⟩
      exact absurd rfl (hno t)

theorem splitFirst_cons (c : Char) (rest : Str) :
    splitFirst (c :: rest) =
      if startsSep (c :: rest) then some ([], rest.drop 2)
      else match splitFirst rest with
        | none => none
        | some (a, b) => some (c :: a, b) := rfl

theorem splitFirst_tail {c : Char} {t : Str} (h : splitFirst (c :: t) = none) :
    splitFirst t = none := by
  rw [splitFirst_cons] at h
  split at h
  · exact absurd h (by simp)
  · rcases hs : splitFirst t with _ | p
    · rfl
    · rw [hs] at h
      exact absurd h (by simp)

theorem splitFirst_eq {s a r : Str} (h : splitFirst s = some (a, r)) :
    s = a ++ sepS ++ r := by
  induction s generalizing a r with
  | nil => simp [splitFirst] at h
  | cons c rest ih =>
    rw [splitFirst_cons] at h
    by_cases hss : startsSep (c :: rest) = true
    · rw [if_pos hss] at h
      obtain ⟨t, ht⟩ := startsSep_iff.mp hss
      injection ht with hc hrest
      subst hc
      subst hrest
      simp only [Option.some.injEq, Prod.mk.injEq] at h
      rcases h with ⟨ha, hr⟩
      subst ha
      simp only [List.drop_succ_cons, List.drop_zero] at hr
      subst hr
      rfl
    · rw [if_neg hss] at h
      rcases hs : splitFirst rest with _ | ⟨a0, b0⟩ <;> rw [hs] at h
      · exact absurd h (by simp)
      · simp only [Option.some.injEq, Prod.mk.injEq] at h
        rcases h with ⟨ha, hr⟩
        subst ha
        subst hr
        have := ih hs
        simp [this]

theorem splitFirst_before_none {s a r : Str} (h : splitFirst s = some (a, r)) :
    splitFirst a = none := by
  induction s generalizing a r with
  | nil => simp [splitFirst] at h
  | cons c rest ih =>
    rw [splitFirst_cons] at h
    by_cases hss : startsSep (c :: rest) = true
    · rw [if_pos hss] at h
      simp only [Option.some.injEq, Prod.mk.injEq] at h
      rw [← h.1]
      rfl
    · rw [if_neg hss] at h
      rcases hs : splitFirst rest with _ | ⟨a0, b0⟩ <;> rw [hs] at h
      · exact absurd h (by simp)
      · simp only [Option.some.injEq, Prod.mk.injEq] at h
        rcases h with ⟨ha, _⟩
        subst ha
        have ha0 : splitFirst a0 = none := ih hs
        rw [splitFirst_cons, if_neg, ha0]
        intro hcs
        obtain ⟨t, ht⟩ := startsSep_iff.mp hcs
        injection ht with hc ha0t
        subst hc
        subst ha0t
        -- rest = ('/' :: '/' :: t) ++ sepS ++ b0, so c :: rest starts ":://" ...
        have hre := splitFirst_eq hs
        apply hss
        rw [startsSep_iff]
        exact ⟨t ++ sepS ++ b0, by simp [hre]⟩

theorem splitFirst_append_sep {a : Str} (t : Str) (ha : splitFirst a = none) :
    splitFirst (a ++ sepS ++ t) = some (a, t) := by
  induction a with
  | nil => simp [splitFirst, startsSep, sepS]
  | cons c a1 ih =>
    have ha1 : splitFirst a1 = none := splitFirst_tail ha
    have step := ih ha1
    have hstep : splitFirst (a1 ++ sepS ++ t) = some (a1, t) := step
    rw [List.cons_append, List.cons_append, splitFirst_cons, if_neg, hstep]
    intro hcs
    obtain ⟨u, hu⟩ := startsSep_iff.mp hcs
    injection hu with hc hrest
    subst hc
    -- a1 ++ sepS ++ t = '/' :: '/' :: u ; case on a1
    rcases a1 with _ | ⟨x, a2⟩
    · simp [sepS] at hrest
    rcases a2 with _ | ⟨y, a3⟩
    · simp only [List.cons_append, List.nil_append] at hrest
      injection hrest with hx hrest2
      simp [sepS] at hrest2
    · simp only [List.cons_append] at hrest
      injection hrest with hx hrest2
      injection hrest2 with hy hrest3
      subst hx
      subst hy
      simp [splitFirst, startsSep] at ha

theorem splitFirst_append {a b : Str} (ha : splitFirst a = none)
    (hb : splitFirst b = none) (hb0 : ∀ t, b ≠ '/' :: t) :
    splitFirst (a ++ b) = none := by
  induction a with
  | nil => simpa using hb
  | cons c a1 ih =>
    have ha1 : splitFirst a1 = none := splitFirst_tail ha
    have step : splitFirst (a1 ++ b) = none := ih ha1
    rw [List.cons_append, splitFirst_cons, if_neg, step]
    intro hcs
    obtain ⟨u, hu⟩ := startsSep_iff.mp hcs
    injection hu with hc hrest
    subst hc
    rcases a1 with _ | ⟨x, a2⟩
    · simp only [List.nil_append] at hrest
      exact hb0 _ hrest
    rcases a2 with _ | ⟨y, a3⟩
    · simp only [List.cons_append, List.nil_append] at hrest
      injection hrest with hx hrest2
      exact hb0 _ hrest2
    · simp only [List.cons_append] at hrest
      injection hrest with hx hrest2
      injection hrest2 with hy hrest3
      subst hx
      subst hy
      simp [splitFirst, startsSep] at ha

theorem splitFirst_toLowerStr {s : Str} (h : splitFirst s = none) :
    splitFirst (toLowerStr s) = none := by
  induction s with
  | nil => rfl
  | cons c t ih =>
    have ht := ih (splitFirst_tail h)
    show splitFirst (lowerChar c :: toLowerStr t) = none
    rw [splitFirst_cons, if_neg, ht]
    intro hcs
    obtain ⟨u, hu⟩ := startsSep_iff.mp hcs
    injection hu with hc hrest
    have hc2 : c = ':' := lowerChar_eq_colon hc
    subst hc2
    rcases t with _ | ⟨x, t1⟩
    · simp [toLowerStr] at hrest
    rcases t1 with _ | ⟨y, t2⟩
    · simp only [toLowerStr, List.map_cons, List.map_nil] at hrest
      injection hrest with hx hrest2
      simp at hrest2
    · simp only [toLowerStr, List.map_cons] at hrest
      injection hrest with hx hrest2
      injection hrest2 with hy hrest3
      have hx2 : x = '/' := lowerChar_eq_slash hx
      have hy2 : y = '/' := lowerChar_eq_slash hy
      subst hx2
      subst hy2
      simp [splitFirst, startsSep] at h

theorem firstSeg_none {s : Str} (h : splitFirst s = none) : firstSeg s = s := by
  unfold firstSeg
  rw [h]

theorem splitFirst_firstSeg (s : Str) : splitFirst (firstSeg s) = none := by
  unfold firstSeg
  rcases h : splitFirst s with _ | ⟨a, r⟩
  · exact h
  · exact splitFirst_before_none h

theorem decomposeL_snd (s : Str) : splitFirst (decomposeL s).2 = none := by
  rcases h : splitFirst s with _ | ⟨a, r⟩
  · simp only [decomposeL, h]
  · simp only [decomposeL, h]
    exact splitFirst_firstSeg r

theorem decomposeL_of_none {s : Str} (h : splitFirst s = none) :
    decomposeL s = (fileS, s) := by
  simp [decomposeL, h]

/-- C5 counterexample: `_decompose` does not split on the first occurrence of
`"://"` only: on `"a://b://c"` it returns path `"b"`, dropping `"://c"`,
whereas a first-occurrence split would return path `"b://c"`. -/
theorem C5_counterexample :
    decomposeL (strR (r"a://b://c")) = (strR (r"a"), strR (r"b")) ∧
    decomposeSpecFirst (strR (r"a://b://c")) = (strR (r"a"), strR (r"b://c")) ∧
    strR (r"b") ≠ strR (r"b://c") := by
  refine ⟨by decide, by decide, by decide⟩

/-- C5 (amended): `_decompose` lower-cases the scheme and takes as path the
text between the first and second occurrences of `"://"` (text after a second
occurrence is dropped); absence of the separator implies scheme `"file"`.
For every location string, reconstructing `scheme + "://" + path` (bare path
when the scheme is `"file"`) yields an equivalent location: it decomposes to
the same (scheme, path) pair. -/
theorem C5_roundtrip (s : Str) : locEquiv (recompose (decomposeL s)) s := by
  unfold locEquiv
  rcases h : splitFirst s with _ | ⟨a, r⟩
  · rw [decomposeL_of_none h]
    have hrc : recompose (fileS, s) = s := by simp [recompose]
    rw [hrc]
    exact decomposeL_of_none h
  · have hd : decomposeL s = (toLowerStr a, firstSeg r) := by
      simp [decomposeL, h]
    rw [hd]
    have hp : splitFirst (firstSeg r) = none := splitFirst_firstSeg r
    have hla : splitFirst (toLowerStr a) = none :=
      splitFirst_toLowerStr (splitFirst_before_none h)
    by_cases hf : toLowerStr a = fileS
    · have hrc : recompose (toLowerStr a, firstSeg r) = firstSeg r := by
        simp [recompose, hf]
      rw [hrc, decomposeL_of_none hp, hf]
    · have hrc : recompose (toLowerStr a, firstSeg r) =
          toLowerStr a ++ sepS ++ firstSeg r := by
        simp [recompose, hf]
      rw [hrc]
      simp only [decomposeL, splitFirst_append_sep (firstSeg r) hla]
      rw [toLowerStr_idem, firstSeg_none hp]

-- ### Path utilities

/-- Python `str.split(ch)` on a single-character separator. -/
def splitChar (sep : Char) : Str → List Str
  | [] => [[]]
  | c :: rest =>
    if c = sep then [] :: splitChar sep rest
    else
      match splitChar sep rest with
      | [] => [[c]]
      | s :: ss => (c :: s) :: ss

/-- Python `sep.join` for `'/'`: interleave `'/'` between the pieces. -/
def joinSlash : List Str → Str
  | [] => []
  | [x] => x
  | x :: xs => x ++ '/' :: joinSlash xs

/-- `pathlib.Path(a, b)`: when `b` is absolute (starts with `'/'`) it
overrides `a`; otherwise the segments are joined with `'/'`. -/
def joinPath (a b : Str) : Str :=
  match b with
  | '/' :: _ => b
  | _ => a ++ '/' :: b

/-- Python `str.startswith`: `startsWithL s p` is true when `p` is an initial
segment of `s`. -/
def startsWithL : Str → Str → Bool
  | _, [] => true
  | [], _ :: _ => false
  | c :: s, p :: ps => c == p && startsWithL s ps

/-- `pathlib.Path.resolve` modelled lexically: split on `'/'`, drop empty and
`"."` segments, let `".."` pop the previous segment (staying at the root when
there is none), and rebuild an absolute path.  The working directory for
relative paths is modelled as the filesystem root; symbolic links are not
modelled. -/
def normalizePath (p : Str) : Str :=
  let segs := (splitChar '/' p).filter (fun x => !(x == [] || x == ['.']))
  let stack := segs.foldl
    (fun st x => if x = ['.', '.'] then st.dropLast else st ++ [x])
    ([] : List Str)
  '/' :: joinSlash stack

/-- The process-wide cache directory `cacheDir.name`
(`tempfile.TemporaryDirectory(prefix="nstore.")`), modelled as a fixed
absolute path. -/
def cacheRootS : Str := strR (r"/tmp/nstore.cache")

/-- `_decomposeS3`: re-decompose to strip an optional `"s3://"` prefix, then
split on `'/'`; the first piece is the bucket, the rest joined by `'/'` is
the key. -/
def decomposeS3L (p : Str) : Str × Str :=
  let paff := (decomposeL p).2
  let parts := splitChar '/' paff
  (parts.headD [], joinSlash (parts.drop 1))

-- ### Data model of the copy engine and access sessions

/-- The filesystem visible to the copy engine: an association list from
absolute path strings to file contents. -/
abbrev FS := List (Str × Str)

def lookupFS : FS → Str → Option Str
  | [], _ => none
  | (q, c) :: rest, p => if q = p then some c else lookupFS rest p

def eraseFS (fs : FS) (p : Str) : FS := fs.filter (fun e => !(e.1 == p))

def setFS (fs : FS) (p c : Str) : FS := (p, c) :: eraseFS fs p

def existsFS (fs : FS) (p : Str) : Bool := (lookupFS fs p).isSome

/-- Observable side effects of the embedded operations. -/
inductive Effect
  /-- `Path(p).parent.mkdir(parents=True, exist_ok=True)` -/
  | mkdirsParent (p : Str)
  /-- `shutil.copyfile(src, dst)` -/
  | copyfileE (src dst : Str)
  /-- `s3.Object(bucket, key).upload_file(src)` -/
  | uploadE (bucket key src : Str)
  /-- `s3.Object(bucket, key).download_file(dst)` -/
  | downloadE (bucket key dst : Str)
  /-- `Path(p).unlink()` -/
  | unlinkE (p : Str)
  /-- `shutil.rmtree(p, ignore_errors=True)` -/
  | rmtreeE (p : Str)
  /-- `crackOpen(p, mode)` handed to the caller -/
  | openE (p mode : Str)
  /-- a nested `clean(p)` call made by `copy` or `access` -/
  | cleanCallE (p : Str)
  deriving DecidableEq

/-- The exception raised by an embedded operation, mirroring
`nstore/exceptions.py`.  `raw` stands for an exception that propagates to
the caller without being wrapped in an nStore error type. -/
inductive Err
  | unsupportedMode (mode : Str) (allowed : List Str)
  | invalidAccess (path msg : Str)
  | deleteE (path msg : Str)
  | unsupportedProtocol (protocol : Str)
  | s3 (path msg : Str)
  | raw (msg : Str)
  deriving DecidableEq

/-- The narrow interface of the boto3 S3 resource used by the copy engine:
`download bucket key` yields the object body or a `ClientError` message;
`upload bucket key content` yields `none` on success or an error message. -/
structure S3Client where
  download : Str → Str → Except Str Str
  upload : Str → Str → Str → Option Str

/-- Result of an embedded operation: the raised error (if any), the
filesystem afterwards, and the side effects performed before returning or
raising. -/
structure R where
  err : Option Err
  fs : FS
  effs : List Effect
  deriving DecidableEq

def READMODES : List Str := [strR (r"r"), strR (r"rb"), strR (r"rt")]

def WRITEMODES : List Str := [strR (r"w"), strR (r"wb"), strR (r"wt")]

def APPENDMODES : List Str := [strR (r"a"), strR (r"ab"), strR (r"at")]

def supportedModes : List Str := READMODES ++ WRITEMODES ++ APPENDMODES

/-- `_isDupe`: equal (scheme, path) pairs, or two `file` paths that resolve
to the same canonical path.  `resolveF` abstracts `pathlib.Path.resolve`,
which depends on the process's filesystem. -/
def isDupe (resolveF : Str → Str) (sp sf dp df : Str) : Bool :=
  if sp = dp ∧ sf = df then true
  else if sp = fileS ∧ dp = fileS ∧ resolveF sf = resolveF df then true
  else false

/-- The `srcprotocol == "file"` branch of `copy` (also reached by the
recursive `copy(tmpdstfpath, dstpath)` call): local-to-local copies via
`shutil.copyfile`, local-to-S3 uploads via `upload_file`.  Note the source
has no `else` clause here: a destination scheme other than `file` or `s3`
falls through silently. -/
def copyLocalSrc (client : S3Client) (fs : FS) (srcfpath dstprotocol dstfpath : Str) : R :=
  if dstprotocol = fileS then
    match lookupFS fs srcfpath with
    | none =>
      ⟨some (.raw (strR (r"FileNotFoundError"))), fs, [.mkdirsParent dstfpath]⟩
    | some content =>
      ⟨none, setFS fs dstfpath content,
        [.mkdirsParent dstfpath, .copyfileE srcfpath dstfpath]⟩
  else if dstprotocol = s3S then
    let bk := decomposeS3L dstfpath
    match lookupFS fs srcfpath with
    | none => ⟨some (.raw (strR (r"FileNotFoundError"))), fs, []⟩
    | some content =>
      match client.upload bk.1 bk.2 content with
      | none => ⟨none, fs, [.uploadE bk.1 bk.2 srcfpath]⟩
      | some e => ⟨some (.raw e), fs, []⟩
  else ⟨none, fs, []⟩

/-- `copy(srcpath, dstpath, extra, usepool)` from `nstore/__init__.py`.

The recursive call `copy(tmpdstfpath, dstpath)` made after a download is
inlined: `tmpdstfpath` never contains `"://"` (see `splitFirst_joinPath`
below), so that call always decomposes its source to `(file, tmpdstfpath)`
and reduces to the duplicate check plus the local-source branch.  The
`usepool` flag only selects between a pooled and a fresh client carrying the
same interface, so it is not a parameter of the model. -/
def copyM (client : S3Client) (resolveF : Str → Str) (fs : FS) (srcpath dstpath : Str) : R :=
  let sp := decomposeL srcpath
  let dp := decomposeL dstpath
  if isDupe resolveF sp.1 sp.2 dp.1 dp.2 then ⟨none, fs, []⟩
  else if sp.1 = fileS then
    copyLocalSrc client fs sp.2 dp.1 dp.2
  else
    let tmpdst := if startsWithL dp.2 cacheRootS then dp.2 else joinPath cacheRootS dp.2
    if sp.1 = s3S then
      let bk := decomposeS3L sp.2
      let base := [Effect.mkdirsParent tmpdst, Effect.downloadE bk.1 bk.2 tmpdst]
      match client.download bk.1 bk.2 with
      | .error e => ⟨some (.s3 sp.2 e), fs, base⟩
      | .ok content =>
        let fs1 := setFS fs tmpdst content
        let r2 :=
          if isDupe resolveF fileS tmpdst dp.1 dp.2 then (⟨none, fs1, []⟩ : R)
          else copyLocalSrc client fs1 tmpdst dp.1 dp.2
        match r2.err with
        | some e => ⟨some e, r2.fs, base ++ r2.effs⟩
        | none =>
          if tmpdst ≠ dp.2 then
            ⟨none, eraseFS r2.fs tmpdst, base ++ r2.effs ++ [.cleanCallE tmpdst]⟩
          else ⟨none, r2.fs, base ++ r2.effs⟩
    else
      ⟨some (.unsupportedProtocol
          (dp.1 ++ strR (r" in destination ") ++ dstpath ++ strR (r"; src = ") ++ srcpath)),
        fs, [.mkdirsParent tmpdst]⟩

-- ### Facts about paths and `joinPath`

theorem splitFirst_joinPath {b : Str} (hb : splitFirst b = none) :
    splitFirst (joinPath cacheRootS b) = none := by
  rcases b with _ | ⟨c, t⟩
  · decide
  · by_cases hc : c = '/'
    · subst hc
      exact hb
    · have hj : joinPath cacheRootS (c :: t) = (cacheRootS ++ ['/']) ++ c :: t := by
        unfold joinPath
        split
        · rename_i heq
          injection heq with h1 _
          exact absurd h1 hc
        · simp
      rw [hj]
      refine splitFirst_append (by decide) hb ?_
      intro u hu
      injection hu with h1 _
      exact hc h1

theorem joinPath_idem (b : Str) :
    joinPath cacheRootS (joinPath cacheRootS b) = joinPath cacheRootS b := by
  rcases b with _ | ⟨c, t⟩
  · rfl
  · by_cases hc : c = '/'
    · subst hc
      rfl
    · have hj : joinPath cacheRootS (c :: t) = '/' :: (strR (r"tmp/nstore.cache") ++ '/' :: c :: t) := by
        unfold joinPath
        split
        · rename_i heq
          injection heq with h1 _
          exact absurd h1 hc
        · rfl
      rw [hj]
      rfl

theorem startsWithL_append (l t : Str) : startsWithL (l ++ t) l = true := by
  induction l with
  | nil =>
    rcases t with _ | u <;> rfl
  | cons c s ih =>
    show (c == c && startsWithL (s ++ t) s) = true
    simp [ih]

theorem startsWithL_of_append {s a b : Str} (h : startsWithL s (a ++ b) = true) :
    startsWithL s a = true := by
  induction a generalizing s with
  | nil =>
    rcases s with _ | ⟨c, u⟩ <;> rfl
  | cons c a1 ih =>
    rcases s with _ | ⟨d, u⟩
    · exact absurd h (by simp [startsWithL])
    · have hdu : (d == c && startsWithL u (a1 ++ b)) = true := h
      simp only [Bool.and_eq_true, beq_iff_eq] at hdu
      show (d == c && startsWithL u a1) = true
      simp [hdu.1, ih hdu.2]

-- ### The session pool (`nstore/pool.py`)

/-- State of an `ObjectPool`: how many handles the factory has constructed so
far, and the FIFO queue of idle handles.  Handles are identified by their
creation index, so `created` also counts the distinct handles ever built. -/
structure PoolState where
  created : Nat
  queue : List Nat
  deriving DecidableEq

def poolInit : PoolState := ⟨0, []⟩

/-- `ObjectPool.get`: if `queue.qsize() < max_size and queue.empty()`, build
a fresh handle and enqueue it; then dequeue.  A dequeue from an empty queue
blocks the calling thread, modelled as `none`. -/
def poolGet (maxSize : Nat) (s : PoolState) : Option (Nat × PoolState) :=
  let s1 := if s.queue.length < maxSize ∧ s.queue.isEmpty = true then
      { created := s.created + 1, queue := s.queue ++ [s.created] }
    else s
  match s1.queue with
  | [] => none
  | h :: t => some (h, { s1 with queue := t })

/-- `ObjectPool.put`: return a handle to the idle queue. -/
def poolPut (s : PoolState) (h : Nat) : PoolState := { s with queue := s.queue ++ [h] }

-- ### Localization and access sessions (`_localize` and `access`)

/-- Result of `_localize`: the raised error / filesystem / effects, the local
path handed to `crackOpen`, and the `isCached` flag. -/
structure LocRes where
  r : R
  localpath : Str
  isCached : Bool
  deriving DecidableEq

/-- `_localize(path, usecache, mode, usepool, extra)`: local paths are
resolved and marked not cached; remote paths map to
`Path(cacheDir.name, fpath)` and are fetched by `copy` unless the mode is a
write mode or a cached copy exists and caching was requested. -/
def localizeM (client : S3Client) (resolveF : Str → Str) (fs : FS)
    (path mode : Str) (usecache : Bool) : LocRes :=
  let pr := decomposeL path
  if pr.1 = fileS then ⟨⟨none, fs, []⟩, resolveF pr.2, false⟩
  else
    let cachedpath := joinPath cacheRootS pr.2
    if (¬ mode ∈ WRITEMODES) ∧ ¬(usecache = true ∧ existsFS fs cachedpath = true) then
      ⟨copyM client resolveF fs path cachedpath, cachedpath, true⟩
    else ⟨⟨none, fs, []⟩, cachedpath, true⟩

/-- `_hashFile`: the content hash of the file at `p`, or `"0"` when the file
does not exist.  `hashFn` abstracts the SHA-256 digest of the content. -/
def hashFileM (hashFn : Str → Str) (fs : FS) (p : Str) : Str :=
  match lookupFS fs p with
  | none => strR (r"0")
  | some c => hashFn c

/-- The content of the staged file after the caller's use of the handle:
write modes truncate and leave what the caller wrote, append modes add it to
the existing content (an empty file is created when none exists), read modes
leave the content unchanged. -/
def newContentM (mode written : Str) (fs1 : FS) (lp : Str) : Str :=
  if mode ∈ WRITEMODES then written
  else if mode ∈ APPENDMODES then ((lookupFS fs1 lp).getD []) ++ written
  else (lookupFS fs1 lp).getD []

/-- `access(path, mode, usecache, usepool, extra)` driven to completion with
the caller's interaction through the handle abstracted as the string
`written`: mode validation, localization, parent-directory creation for
write modes, pre-hash, the open/use of the handle, post-hash with
conditional write-back `copy(localpath, path)`, and cache eviction via
`clean(localpath)` when caching was not requested. -/
def accessM (client : S3Client) (resolveF : Str → Str) (hashFn : Str → Str)
    (fs : FS) (path mode : Str) (usecache : Bool) (written : Str) : R :=
  if ¬ mode ∈ supportedModes then
    ⟨some (.unsupportedMode mode supportedModes), fs, []⟩
  else
    let lr := localizeM client resolveF fs path mode usecache
    match lr.r.err with
    | some e => ⟨some e, lr.r.fs, lr.r.effs⟩
    | none =>
      let fs1 := lr.r.fs
      let lp := lr.localpath
      let e1 := lr.r.effs ++ (if mode ∈ WRITEMODES then [Effect.mkdirsParent lp] else [])
      let hb := hashFileM hashFn fs1 lp
      if mode ∈ READMODES ∧ lookupFS fs1 lp = none then
        ⟨some (.raw (strR (r"FileNotFoundError"))), fs1, e1⟩
      else
        let fs2 := setFS fs1 lp (newContentM mode written fs1 lp)
        let e2 := e1 ++ [Effect.openE lp mode]
        let r3 : R :=
          if lr.isCached = true ∧ mode ∈ WRITEMODES ++ APPENDMODES then
            if hashFileM hashFn fs2 lp ≠ hb then copyM client resolveF fs2 lp path
            else ⟨none, fs2, []⟩
          else ⟨none, fs2, []⟩
        match r3.err with
        | some e => ⟨some e, r3.fs, e2 ++ r3.effs⟩
        | none =>
          if lr.isCached = true ∧ usecache = false then
            ⟨none, eraseFS r3.fs lp, e2 ++ r3.effs ++ [Effect.cleanCallE lp]⟩
          else ⟨none, r3.fs, e2 ++ r3.effs⟩

/-- The Staged File path of a location: `<cache-root>/<path-component>`. -/
def stagedPathOf (path : Str) : Str := joinPath cacheRootS (decomposeL path).2

/-- The filesystem after the localization phase of an access session. -/
def fsAfterLocalize (client : S3Client) (resolveF : Str → Str) (fs : FS)
    (path mode : Str) (usecache : Bool) : FS :=
  (localizeM client resolveF fs path mode usecache).r.fs

/-- The content hash of the staged file between localization and the
caller's use (the session's `hashbefore`). -/
def stagedHashBefore (client : S3Client) (resolveF : Str → Str) (hashFn : Str → Str)
    (fs : FS) (path mode : Str) (usecache : Bool) : Str :=
  hashFileM hashFn (fsAfterLocalize client resolveF fs path mode usecache)
    (stagedPathOf path)

/-- The content hash of the staged file after the caller's use (the
session's `hashafter`). -/
def stagedHashAfter (client : S3Client) (resolveF : Str → Str) (hashFn : Str → Str)
    (fs : FS) (path mode : Str) (usecache : Bool) (written : Str) : Str :=
  let fs1 := fsAfterLocalize client resolveF fs path mode usecache
  let sp := stagedPathOf path
  hashFileM hashFn (setFS fs1 sp (newContentM mode written fs1 sp)) sp

/-- Count of upload effects addressed to a given bucket and key. -/
def uploadsTo (effs : List Effect) (bucket key : Str) : Nat :=
  effs.countP (fun e =>
    match e with
    | .uploadE b k _ => b == bucket && k == key
    | _ => false)

/-- Count of download (remote fetch) effects. -/
def downloadCount (effs : List Effect) : Nat :=
  effs.countP (fun e =>
    match e with
    | .downloadE _ _ _ => true
    | _ => false)

-- ### Cache reclamation (`clean`)

/-- What an entry found by the glob scan looks like to `clean`: `file` when
`f.is_file()` is true, `dir` when `f.is_dir()` is true instead, and `other`
when both are false (e.g. broken symbolic links — the source's
`else: continue` branch). -/
inductive EntryKind
  | file
  | dir
  | other
  deriving DecidableEq

/-- The filesystem visible to `clean`: entries under scan with the kind the
`is_file` / `is_dir` predicates report for them. -/
abbrev CFS := List (Str × EntryKind)

/-- Result of `clean`: raised error, remaining entries, performed effects. -/
structure CR where
  err : Option Err
  fs : CFS
  effs : List Effect
  deriving DecidableEq

/-- `cacheDir.name` followed by a path separator. -/
def cacheSlash : Str := cacheRootS ++ ['/']

/-- A glob result path made relative to the cache root. -/
def relPart (p : Str) : Str := p.drop cacheSlash.length

/-- The pattern handling of `clean`: strip an optional protocol, prepend the
cache directory when the pattern does not already start with it, and resolve
the result. -/
def cleanPattern (path : Str) : Str :=
  let patt0 := (decomposeL path).2
  let patt := if startsWithL patt0 cacheRootS then patt0 else joinPath cacheRootS patt0
  normalizePath patt

/-- `pathlib.Path.relative_to(cacheDir.name)`: defined only when the
resolved pattern is the cache root or lies under it segment-wise; otherwise
`relative_to` raises `ValueError`. -/
def relativeToOpt (resolved : Str) : Option Str :=
  if resolved = cacheRootS then some []
  else if startsWithL resolved cacheSlash then some (relPart resolved)
  else none

/-- The message of the `InvalidAccessError` raised by `clean`. -/
def cleanWarnMsg : Str := strR (r"Attempted to clean file(s) outside of nStore's cache!")

/-- `Path(cacheDir.name).glob(pattern)` modelled as the entries lying under
the cache root whose cache-relative path satisfies the abstract matching
predicate `matchFn` (glob pattern semantics are outside the model). -/
def globMatches (matchFn : Str → Bool) (fs : CFS) : CFS :=
  fs.filter (fun e => startsWithL e.1 cacheSlash && matchFn (relPart e.1))

/-- The deletion performed for one glob result: files are unlinked,
directories removed recursively, anything else is skipped. -/
def deleteEffect : Str × EntryKind → List Effect
  | (p, .file) => [.unlinkE p]
  | (p, .dir) => [.rmtreeE p]
  | (_, .other) => []

/-- Is the entry at `q` removed by the deletions of the matched entries?
Unlinking removes exactly the matched file; `rmtree` removes the matched
directory and everything below it. -/
def coveredBy (matched : CFS) (q : Str) : Bool :=
  matched.any (fun e =>
    match e.2 with
    | .file => q == e.1
    | .dir => q == e.1 || startsWithL q (e.1 ++ ['/'])
    | .other => false)

/-- `clean(path)` from `nstore/__init__.py`. -/
def cleanModel (matchFn : Str → Bool) (fs : CFS) (path : Str) : CR :=
  let resolved := cleanPattern path
  if ¬ startsWithL resolved cacheRootS = true then
    ⟨some (.invalidAccess resolved cleanWarnMsg), fs, []⟩
  else
    match relativeToOpt resolved with
    | none => ⟨some (.raw (strR (r"ValueError"))), fs, []⟩
    | some _ =>
      let matched := globMatches matchFn fs
      ⟨none, fs.filter (fun e => !(coveredBy matched e.1)),
        (matched.map deleteEffect).flatten⟩

/-- The paths which `clean` directly unlinks or removes recursively. -/
def deletedPaths (effs : List Effect) : List Str :=
  effs.filterMap (fun e =>
    match e with
    | .unlinkE p => some p
    | .rmtreeE p => some p
    | _ => none)

-- ### Helper lemmas about the copy engine

theorem lookupFS_setFS (fs : FS) (p c : Str) :
    lookupFS (setFS fs p c) p = some c := by
  simp [setFS, lookupFS]

theorem isDupe_s3_file (resolveF : Str → Str) (sf df : Str) :
    isDupe resolveF s3S sf fileS df = false := by
  unfold isDupe
  rw [if_neg, if_neg]
  · rintro ⟨h1, _, _⟩
    exact absurd h1 (by decide)
  · rintro ⟨h1, _⟩
    exact absurd h1 (by decide)

theorem isDupe_file_s3 (resolveF : Str → Str) (sf df : Str) :
    isDupe resolveF fileS sf s3S df = false := by
  unfold isDupe
  rw [if_neg, if_neg]
  · rintro ⟨_, h1, _⟩
    exact absurd h1 (by decide)
  · rintro ⟨h1, _⟩
    exact absurd h1 (by decide)

theorem isDupe_refl (resolveF : Str → Str) (p f : Str) :
    isDupe resolveF p f p f = true := by
  unfold isDupe
  rw [if_pos ⟨rfl, rfl⟩]

/-- `copy(path, stagedPathOf path)` for an S3 source: the localization fetch.
The temporary destination coincides with the staged path, so the recursive
copy is a duplicate no-op and no cleanup happens. -/
theorem copyM_to_staged (client : S3Client) (resolveF : Str → Str) (fs : FS)
    (path : Str) (hsrc : (decomposeL path).1 = s3S) :
    copyM client resolveF fs path (stagedPathOf path) =
      match client.download (decomposeS3L (decomposeL path).2).1
          (decomposeS3L (decomposeL path).2).2 with
      | .error e =>
        ⟨some (.s3 (decomposeL path).2 e), fs,
          [.mkdirsParent (stagedPathOf path),
           .downloadE (decomposeS3L (decomposeL path).2).1
             (decomposeS3L (decomposeL path).2).2 (stagedPathOf path)]⟩
      | .ok content =>
        ⟨none, setFS fs (stagedPathOf path) content,
          [.mkdirsParent (stagedPathOf path),
           .downloadE (decomposeS3L (decomposeL path).2).1
             (decomposeS3L (decomposeL path).2).2 (stagedPathOf path)]⟩ := by
  have hfp : splitFirst (decomposeL path).2 = none := decomposeL_snd path
  have hcp : splitFirst (stagedPathOf path) = none := by
    unfold stagedPathOf
    exact splitFirst_joinPath hfp
  have hdcp : decomposeL (stagedPathOf path) = (fileS, stagedPathOf path) :=
    decomposeL_of_none hcp
  have htmp :
      (if startsWithL (stagedPathOf path) cacheRootS = true then stagedPathOf path
       else joinPath cacheRootS (stagedPathOf path)) = stagedPathOf path := by
    split
    · rfl
    · exact joinPath_idem (decomposeL path).2
  simp only [copyM, hdcp, hsrc, isDupe_s3_file, isDupe_refl, htmp]
  rw [if_neg (by decide : ¬ (false = true)), if_neg (show ¬ s3S = fileS by decide),
    if_pos trivial]
  cases hdl : client.download (decomposeS3L (decomposeL path).2).1
      (decomposeS3L (decomposeL path).2).2 with
  | error e => rfl
  | ok content => simp

/-- The write-back `copy(localpath, path)` for an S3 original: an upload of
the staged file's content. -/
theorem copyM_from_staged (client : S3Client) (resolveF : Str → Str) (fs2 : FS)
    (lp path : Str) (hlp : splitFirst lp = none)
    (hsrc : (decomposeL path).1 = s3S) :
    copyM client resolveF fs2 lp path =
      match lookupFS fs2 lp with
      | none => ⟨some (.raw (strR (r"FileNotFoundError"))), fs2, []⟩
      | some content =>
        match client.upload (decomposeS3L (decomposeL path).2).1
            (decomposeS3L (decomposeL path).2).2 content with
        | none =>
          ⟨none, fs2,
            [.uploadE (decomposeS3L (decomposeL path).2).1
              (decomposeS3L (decomposeL path).2).2 lp]⟩
        | some e => ⟨some (.raw e), fs2, []⟩ := by
  have hdlp : decomposeL lp = (fileS, lp) := decomposeL_of_none hlp
  simp only [copyM, hdlp, hsrc, isDupe_file_s3, copyLocalSrc,
    if_neg (show ¬ s3S = fileS by decide), if_pos (rfl : s3S = s3S)]
  simp

/-- `_localize` for an S3 location. -/
theorem localizeM_s3 (client : S3Client) (resolveF : Str → Str) (fs : FS)
    (path mode : Str) (usecache : Bool)
    (hsrc : (decomposeL path).1 = s3S) :
    localizeM client resolveF fs path mode usecache =
      if (¬ mode ∈ WRITEMODES) ∧ ¬(usecache = true ∧ existsFS fs (stagedPathOf path) = true) then
        ⟨copyM client resolveF fs path (stagedPathOf path), stagedPathOf path, true⟩
      else ⟨⟨none, fs, []⟩, stagedPathOf path, true⟩ := by
  simp only [localizeM, stagedPathOf, hsrc]
  rw [if_neg]
  intro hcon
  exact absurd hcon (by decide)

theorem mem_WA_not_read {mode : Str} (h : mode ∈ WRITEMODES ++ APPENDMODES) :
    ¬ mode ∈ READMODES := by
  simp only [WRITEMODES, APPENDMODES, List.mem_append, List.mem_cons,
    List.not_mem_nil, or_false] at h
  rcases h with (h | h | h) | (h | h | h) <;> subst h <;> decide

theorem mem_WA_supported {mode : Str} (h : mode ∈ WRITEMODES ++ APPENDMODES) :
    mode ∈ supportedModes := by
  simp only [supportedModes, List.mem_append]
  simp only [List.mem_append] at h
  rcases h with h | h
  · exact Or.inl (Or.inr h)
  · exact Or.inr h

-- ### Concrete collaborators for closed evaluations

/-- A remote client whose downloads and uploads always succeed (downloads
yield an empty body). -/
def clientOk : S3Client := ⟨fun _ _ => Except.ok [], fun _ _ _ => none⟩

/-- A remote client whose downloads fail with a `ClientError` message. -/
def clientBadGet : S3Client :=
  ⟨fun _ _ => Except.error (strR (r"denied")), fun _ _ _ => none⟩

/-- A remote client whose uploads fail. -/
def clientBadPut : S3Client :=
  ⟨fun _ _ => Except.ok [], fun _ _ _ => some (strR (r"boom"))⟩

-- ### Claim C1 — session pool bound

/-- C1: evaluation of `ObjectPool.get` at the failing input.  With
`max_size = 1`, a first acquire constructs handle 0; a second acquire while
handle 0 is still checked out (one handle created, idle queue empty) finds
`qsize() = 0 < 1` and `empty()` true, so it constructs a second handle and
returns it immediately instead of blocking: the total of distinct
constructed handles reaches 2 > 1.  The creation guard counts idle handles,
not created ones. -/
theorem C1_pool_overcreation :
    poolGet 1 poolInit = some (0, { created := 1, queue := [] }) ∧
    poolGet 1 { created := 1, queue := [] } = some (1, { created := 2, queue := [] }) :=
  ⟨by decide, by decide⟩

-- ### Claim C2 — unsupported-protocol errors in copy

/-- C2: evaluation of `copy` at the failing inputs.  With a local source and
destination scheme `ftp` (neither local nor S3), `copy` returns silently
with no effects and no error, because the destination dispatch has no `else`
branch.  With source scheme `ftp`, `copy` raises `UnsupportedProtocolError`,
but its message names the destination scheme `file`, not the source scheme
`ftp`. -/
theorem C2_unsupported_protocol_eval :
    copyM clientOk normalizePath [(strR (r"a.txt"), strR (r"hi"))]
        (strR (r"a.txt")) (strR (r"ftp://h/p"))
      = ⟨none, [(strR (r"a.txt"), strR (r"hi"))], []⟩ ∧
    (copyM clientOk normalizePath [] (strR (r"ftp://h/p")) (strR (r"b.txt"))).err
      = some (Err.unsupportedProtocol
          (strR (r"file in destination b.txt; src = ftp://h/p"))) :=
  ⟨by decide, by decide⟩

-- ### Claim C3 — staged-file reuse during localization

/-- C3 counterexample: localizing `s3://b/k` in mode `"w"` with caching not
requested and no staged file present performs no `copy(source, staged-path)`
at all (no effects, no error), while the claim requires a copy in every case
where the reuse conditions do not all hold. -/
theorem C3_counterexample :
    (localizeM clientOk normalizePath [] (strR (r"s3://b/k")) (strR (r"w")) false).r
      = ⟨none, [], []⟩ ∧
    (localizeM clientOk normalizePath [] (strR (r"s3://b/k")) (strR (r"w")) false).isCached
      = true :=
  ⟨by decide, by decide⟩

/-- C3 (amended): during localization of a remote (S3) path, exactly one
remote fetch is performed when the mode is not a write mode and not both
caching was requested and a staged file exists; in every other case — in
particular for every write mode — no fetch is performed and the staged path
is reused as is. -/
theorem C3_localize_fetch_iff (client : S3Client) (resolveF : Str → Str)
    (fs : FS) (path mode : Str) (usecache : Bool)
    (hsrc : (decomposeL path).1 = s3S) :
    downloadCount (localizeM client resolveF fs path mode usecache).r.effs
      = if (¬ mode ∈ WRITEMODES) ∧ ¬(usecache = true ∧ existsFS fs (stagedPathOf path) = true)
        then 1 else 0 := by
  rw [localizeM_s3 client resolveF fs path mode usecache hsrc]
  split
  · rw [copyM_to_staged client resolveF fs path hsrc]
    cases hdl : client.download (decomposeS3L (decomposeL path).2).1
        (decomposeS3L (decomposeL path).2).2 with
    | error e => simp [downloadCount]
    | ok content => simp [downloadCount]
  · simp [downloadCount]

/-- C3 witness: an uncached read of `s3://b/k` triggers exactly one fetch. -/
theorem C3_localize_fetch_iff_witness :
    downloadCount (localizeM clientOk normalizePath [] (strR (r"s3://b/k"))
      (strR (r"r")) false).r.effs = 1 :=
  (C3_localize_fetch_iff clientOk normalizePath [] (strR (r"s3://b/k"))
    (strR (r"r")) false (by decide)).trans (by decide)

-- ### Claim C4 — wrapping of remote-client errors

/-- C4 counterexample: an error raised by the remote client during a put
(`upload_file`) in `copy` reaches the caller raw — the `file → s3` branch
has no try/except — instead of being wrapped in a store-specific error. -/
theorem C4_counterexample :
    (copyM clientBadPut normalizePath [(strR (r"a.txt"), strR (r"hi"))]
        (strR (r"a.txt")) (strR (r"s3://b/k"))).err
      = some (Err.raw (strR (r"boom"))) := by decide

/-- C4 (amended): a `ClientError` raised by the remote client during a get
(`download_file`) is wrapped and re-raised as `S3Error` carrying the
original source path and the client's message; errors raised during a put
(`upload_file`) are not wrapped and propagate raw. -/
theorem C4_get_error_wrapped (client : S3Client) (resolveF : Str → Str)
    (fs : FS) (srcpath dstpath e : Str)
    (hsrc : (decomposeL srcpath).1 = s3S)
    (hnd : isDupe resolveF (decomposeL srcpath).1 (decomposeL srcpath).2
      (decomposeL dstpath).1 (decomposeL dstpath).2 = false)
    (hdl : client.download (decomposeS3L (decomposeL srcpath).2).1
      (decomposeS3L (decomposeL srcpath).2).2 = Except.error e) :
    (copyM client resolveF fs srcpath dstpath).err
      = some (Err.s3 (decomposeL srcpath).2 e) := by
  rw [hsrc] at hnd
  simp only [copyM, hsrc, hnd, hdl]
  rw [if_neg (by decide : ¬ (false = true)),
    if_neg (show ¬ s3S = fileS by decide), if_pos trivial]

/-- C4 witness: a failing download of `s3://b/k` surfaces as
`S3Error("b/k", "denied")`. -/
theorem C4_get_error_wrapped_witness :
    (copyM clientBadGet normalizePath [] (strR (r"s3://b/k")) (strR (r"out.txt"))).err
      = some (Err.s3 (strR (r"b/k")) (strR (r"denied"))) :=
  C4_get_error_wrapped clientBadGet normalizePath [] (strR (r"s3://b/k"))
    (strR (r"out.txt")) (strR (r"denied")) (by decide) (by decide) rfl

-- ### Claim C6 -- write-back exactly when the content hash changed

/-- C6: for an access session on a staged S3 file in a write or append mode
that completes normally, exactly one write-back upload to the original
bucket and key occurs when the staged file's content hash after the caller's
use differs from the hash taken after localization, and zero such uploads
occur when the hashes are equal. -/
theorem C6_writeback_iff_hash_changed (client : S3Client) (resolveF : Str → Str)
    (hashFn : Str → Str) (fs : FS) (path mode : Str) (usecache : Bool) (written : Str)
    (hsrc : (decomposeL path).1 = s3S)
    (hmode : mode ∈ WRITEMODES ++ APPENDMODES)
    (hok : (accessM client resolveF hashFn fs path mode usecache written).err = none) :
    uploadsTo (accessM client resolveF hashFn fs path mode usecache written).effs
        (decomposeS3L (decomposeL path).2).1 (decomposeS3L (decomposeL path).2).2
      = if stagedHashAfter client resolveF hashFn fs path mode usecache written
           ≠ stagedHashBefore client resolveF hashFn fs path mode usecache
        then 1 else 0 := by
  have hsup := mem_WA_supported hmode
  have hnr := mem_WA_not_read hmode
  have hfp := decomposeL_snd path
  have hsp : splitFirst (stagedPathOf path) = none := by
    unfold stagedPathOf
    exact splitFirst_joinPath hfp
  simp only [accessM, localizeM_s3 client resolveF fs path mode usecache hsrc,
    stagedHashAfter, stagedHashBefore, fsAfterLocalize,
    if_neg (not_not_intro hsup)] at hok ⊢
  by_cases hf : (¬ mode ∈ WRITEMODES) ∧ ¬(usecache = true ∧ existsFS fs (stagedPathOf path) = true)
  · cases hdl : client.download (decomposeS3L (decomposeL path).2).1
        (decomposeS3L (decomposeL path).2).2 with
    | error e =>
      simp only [if_pos hf, copyM_to_staged client resolveF fs path hsrc, hdl] at hok
      exact absurd hok (by simp)
    | ok content =>
      simp only [if_pos hf, copyM_to_staged client resolveF fs path hsrc, hdl] at hok ⊢
      rw [if_neg (show ¬(mode ∈ READMODES ∧ lookupFS (setFS fs (stagedPathOf path) content)
            (stagedPathOf path) = none) from fun hcon => hnr hcon.1)] at hok ⊢
      rw [if_pos (⟨trivial, hmode⟩ : True ∧ mode ∈ WRITEMODES ++ APPENDMODES)] at hok ⊢
      by_cases hh : hashFileM hashFn (setFS (setFS fs (stagedPathOf path) content)
            (stagedPathOf path)
            (newContentM mode written (setFS fs (stagedPathOf path) content) (stagedPathOf path)))
            (stagedPathOf path)
          ≠ hashFileM hashFn (setFS fs (stagedPathOf path) content) (stagedPathOf path)
      · simp only [if_pos hh, copyM_from_staged, hsp, hsrc, lookupFS_setFS] at hok ⊢
        cases hup : client.upload (decomposeS3L (decomposeL path).2).1
            (decomposeS3L (decomposeL path).2).2
            (newContentM mode written (setFS fs (stagedPathOf path) content)
              (stagedPathOf path)) with
        | some e =>
          simp only [hup] at hok
          exact absurd hok (by simp)
        | none =>
          simp only [hup] at hok ⊢
          split <;> simp [uploadsTo, List.countP_append, List.countP_cons]
      · simp only [if_neg hh] at hok ⊢
        split <;> simp [uploadsTo, List.countP_append, List.countP_cons]
  · simp only [if_neg hf] at hok ⊢
    rw [if_neg (show ¬(mode ∈ READMODES ∧ lookupFS fs (stagedPathOf path) = none) from
      fun hcon => hnr hcon.1)] at hok ⊢
    rw [if_pos (⟨trivial, hmode⟩ : True ∧ mode ∈ WRITEMODES ++ APPENDMODES)] at hok ⊢
    by_cases hh : hashFileM hashFn (setFS fs (stagedPathOf path)
          (newContentM mode written fs (stagedPathOf path))) (stagedPathOf path)
        ≠ hashFileM hashFn fs (stagedPathOf path)
    · simp only [if_pos hh, copyM_from_staged, hsp, hsrc, lookupFS_setFS] at hok ⊢
      cases hup : client.upload (decomposeS3L (decomposeL path).2).1
          (decomposeS3L (decomposeL path).2).2
          (newContentM mode written fs (stagedPathOf path)) with
      | some e =>
        simp only [hup] at hok
        exact absurd hok (by simp)
      | none =>
        simp only [hup] at hok ⊢
        split <;> simp [uploadsTo, List.countP_append, List.countP_cons]
    · simp only [if_neg hh] at hok ⊢
      split <;> simp [uploadsTo, List.countP_append, List.countP_cons]

/-- C6 witness: writing `"hi"` into an empty cache for `s3://b/k` (hash
before: `"0"`, hash after: the identity hash of `"hi"`) performs exactly one
write-back upload. -/
theorem C6_writeback_iff_hash_changed_witness :
    uploadsTo (accessM clientOk normalizePath (fun c => c) [] (strR (r"s3://b/k"))
        (strR (r"w")) false (strR (r"hi"))).effs (strR (r"b")) (strR (r"k")) = 1 :=
  (C6_writeback_iff_hash_changed clientOk normalizePath (fun c => c) []
    (strR (r"s3://b/k")) (strR (r"w")) false (strR (r"hi"))
    (by decide) (by decide) (by decide)).trans (by decide)

-- ### Claim C7 and C9 -- cache reclamation safety

theorem mem_deletedPaths_clean {matchFn : Str → Bool} {fs : CFS} {path q : Str}
    (hq : q ∈ deletedPaths (cleanModel matchFn fs path).effs) :
    ∃ k, (q, k) ∈ fs ∧ k ≠ EntryKind.other ∧ startsWithL q cacheSlash = true := by
  simp only [cleanModel] at hq
  split at hq
  · simp [deletedPaths] at hq
  · split at hq
    · simp [deletedPaths] at hq
    · simp only [deletedPaths, List.mem_filterMap] at hq
      obtain ⟨eff, heff, hq2⟩ := hq
      rw [List.mem_flatten] at heff
      obtain ⟨l, hl, hel⟩ := heff
      rw [List.mem_map] at hl
      obtain ⟨entry, hentry, hle⟩ := hl
      subst hle
      have hmem : entry ∈ fs ∧
          (startsWithL entry.1 cacheSlash && matchFn (relPart entry.1)) = true :=
        List.mem_filter.mp hentry
      have hunder : startsWithL entry.1 cacheSlash = true := by
        have h2 := hmem.2
        rw [Bool.and_eq_true] at h2
        exact h2.1
      rcases entry with ⟨ep, ek⟩
      cases ek with
      | file =>
        simp only [deleteEffect, List.mem_singleton] at hel
        subst hel
        simp only [Option.some.injEq] at hq2
        subst hq2
        exact ⟨EntryKind.file, hmem.1, by simp, hunder⟩
      | dir =>
        simp only [deleteEffect, List.mem_singleton] at hel
        subst hel
        simp only [Option.some.injEq] at hq2
        subst hq2
        exact ⟨EntryKind.dir, hmem.1, by simp, hunder⟩
      | other =>
        simp [deleteEffect] at hel

/-- C7: `clean` never deletes a path outside the cache root: when the
resolved pattern does not lie under the cache root, the call raises
`InvalidAccessError` (carrying the resolved pattern and the warning
message) and performs no deletion, leaving the filesystem unchanged; and
every path that any `clean` call unlinks or removes recursively starts with
the cache root. -/
theorem C7_clean_guard (matchFn : Str → Bool) (fs : CFS) (path : Str) :
    (¬ startsWithL (cleanPattern path) cacheRootS = true →
      cleanModel matchFn fs path
        = ⟨some (Err.invalidAccess (cleanPattern path) cleanWarnMsg), fs, []⟩)
    ∧ ∀ q ∈ deletedPaths (cleanModel matchFn fs path).effs,
        startsWithL q cacheRootS = true := by
  constructor
  · intro hout
    simp only [cleanModel]
    rw [if_pos hout]
  · intro q hq
    obtain ⟨k, hk, hko, hunder⟩ := mem_deletedPaths_clean hq
    exact startsWithL_of_append hunder

/-- C7 witness: reclaiming pattern `"../../etc/passwd"` resolves to
`/etc/passwd`, outside the cache root, so `clean` raises
`InvalidAccessError` and deletes nothing. -/
theorem C7_clean_guard_witness :
    cleanModel (fun _ => true) [(strR (r"/etc/passwd"), EntryKind.file)]
        (strR (r"../../etc/passwd"))
      = ⟨some (Err.invalidAccess (strR (r"/etc/passwd")) cleanWarnMsg),
         [(strR (r"/etc/passwd"), EntryKind.file)], []⟩ :=
  (C7_clean_guard (fun _ => true) [(strR (r"/etc/passwd"), EntryKind.file)]
    (strR (r"../../etc/passwd"))).1 (by decide)

/-- C9: every entry found by the glob scan whose `is_file` and `is_dir`
predicates are both false (e.g. the symbolic links mentioned by the
source's `else: continue` branch) is skipped: `clean` never unlinks it and
never removes it recursively. -/
theorem C9_clean_skips_non_file_dir (matchFn : Str → Bool) (fs : CFS) (path p : Str)
    (h : ∀ k, (p, k) ∈ fs → k = EntryKind.other) :
    p ∉ deletedPaths (cleanModel matchFn fs path).effs := by
  intro hp
  obtain ⟨k, hk, hko, _⟩ := mem_deletedPaths_clean hp
  exact hko (h k hk)

/-- C9 witness: a symbolic-link entry inside the cache matched by the scan
is not deleted. -/
theorem C9_clean_skips_non_file_dir_witness :
    strR (r"/tmp/nstore.cache/lnk") ∉ deletedPaths
      (cleanModel (fun _ => true)
        [(strR (r"/tmp/nstore.cache/lnk"), EntryKind.other)] (strR (r"*"))).effs :=
  C9_clean_skips_non_file_dir (fun _ => true)
    [(strR (r"/tmp/nstore.cache/lnk"), EntryKind.other)] (strR (r"*"))
    (strR (r"/tmp/nstore.cache/lnk"))
    (by
      intro k hk
      simp only [List.mem_singleton, Prod.mk.injEq] at hk
      exact hk.2)

-- ### Claim C8 -- copy is a no-op on equivalent locations

/-- C8: `copy(X, Y)` returns immediately with no effects and no error
whenever `X` and `Y` are equivalent locations: equal (scheme, path) pairs
after decomposition, or two `file` locations whose paths resolve to the
same canonical path (covering distinct relative spellings of one file). -/
theorem C8_copy_noop_on_equivalent (client : S3Client) (resolveF : Str → Str)
    (fs : FS) (X Y : Str)
    (h : ((decomposeL X).1 = (decomposeL Y).1 ∧ (decomposeL X).2 = (decomposeL Y).2)
       ∨ ((decomposeL X).1 = fileS ∧ (decomposeL Y).1 = fileS ∧
          resolveF (decomposeL X).2 = resolveF (decomposeL Y).2)) :
    copyM client resolveF fs X Y = ⟨none, fs, []⟩ := by
  have hd : isDupe resolveF (decomposeL X).1 (decomposeL X).2
      (decomposeL Y).1 (decomposeL Y).2 = true := by
    unfold isDupe
    rcases h with ⟨h1, h2⟩ | ⟨h1, h2, h3⟩
    · rw [if_pos ⟨h1, h2⟩]
    · by_cases hfirst : (decomposeL X).1 = (decomposeL Y).1 ∧
          (decomposeL X).2 = (decomposeL Y).2
      · rw [if_pos hfirst]
      · rw [if_neg hfirst, if_pos ⟨h1, h2, h3⟩]
  simp only [copyM]
  rw [if_pos hd]

/-- C8 witness: two distinct relative spellings of the same file are a
no-op under the lexical resolver. -/
theorem C8_copy_noop_on_equivalent_witness :
    copyM clientOk normalizePath [] (strR (r"a/./x")) (strR (r"a/q/../x"))
      = ⟨none, [], []⟩ :=
  C8_copy_noop_on_equivalent clientOk normalizePath [] (strR (r"a/./x"))
    (strR (r"a/q/../x")) (Or.inr ⟨by decide, by decide, by decide⟩)
